import Mathlib

/-!
Shallow embedding of the provider-normalization layer and the file-selection
pipeline of the grok-cli repository
(src/packages/core/src/core/grokContentGenerator.ts and the ReadManyFiles tool
in src/unnamed/part_006), together with proofs settling the frozen claims.

JavaScript strings are modelled as Lean `String` (a list of characters);
JS numbers occurring in the claims are naturals; `null`/`undefined` optional
fields are `Option`; a thrown JS exception is the `Except.error` branch with
the error's class name and message recorded.
-/

/-- Class name and message of a thrown JS error value (`new Error(msg)` has
class name "Error"). -/
structure JsError where
  name : String
  message : String
deriving DecidableEq, Repr

/-- JSON values as produced by `JSON.parse`, extended with `undefined` for the
JavaScript `undefined` that property access on a non-object yields. -/
inductive JVal where
  | null
  | undefined
  | bool (b : Bool)
  | num (n : Int)
  | str (s : String)
  | arr (elems : List JVal)
  | obj (fields : List (String × JVal))

/-- Emptiness of a string, phrased on its character list (JS falsiness of a
string is exactly emptiness). -/
def strEmpty (s : String) : Bool :=
  s.data.isEmpty

/-- JS truthiness of a JSON value (`x || {}` keeps `x` iff it is truthy). -/
def jvTruthy : JVal → Bool
  | .null => false
  | .undefined => false
  | .bool b => b
  | .num n => n != 0
  | .str s => !(strEmpty s)
  | .arr _ => true
  | .obj _ => true

/-- Property access `v[k]` in JS: a lookup on objects, `undefined` otherwise.
(Access on `null` throws instead; callers of this function handle that case
separately.) -/
def jGet (v : JVal) (k : String) : JVal :=
  match v with
  | .obj fields =>
    match fields.lookup k with
    | some w => w
    | none => .undefined
  | _ => .undefined

/-- JS word character, the `\w` class: letters, digits and underscore. -/
def wordChar (c : Char) : Bool :=
  c.isAlpha || c.isDigit || c = '_'

/-- Quote characters accepted by the inline tool-call grammar. -/
def isQuote (c : Char) : Bool :=
  c = Char.ofNat 39 || c = '"'

/-- String.prototype.trim: strip leading and trailing whitespace. -/
def jsTrim (s : String) : String :=
  String.mk (((s.data.dropWhile Char.isWhitespace).reverse.dropWhile
    Char.isWhitespace).reverse)

/-- Substring test on character lists (String.prototype.includes). -/
def hasSubL (pat : List Char) : List Char → Bool
  | [] => pat.isPrefixOf []
  | c :: rest => pat.isPrefixOf (c :: rest) || hasSubL pat rest

/-- Substring test on strings (`s.includes(pat)`). -/
def hasSub (s pat : String) : Bool :=
  hasSubL pat.data s.data

/-- Leftmost occurrence of `pat` in a list: the part before the occurrence and
the part after it, or `none` when `pat` does not occur. -/
def splitFirst (pat : List Char) : List Char → Option (List Char × List Char)
  | [] => if pat.isPrefixOf [] then some ([], []) else none
  | c :: rest =>
    if pat.isPrefixOf (c :: rest) then some ([], (c :: rest).drop pat.length)
    else
      match splitFirst pat rest with
      | some (pre, post) => some (c :: pre, post)
      | none => none

/-- `message.content || ''`. -/
def contentOrEmpty : Option String → String
  | none => ""
  | some c => c

/-- JS truthiness of a nullable string (`null` and the empty string are
falsy). -/
def strTruthy : Option String → Bool
  | none => false
  | some c => !(strEmpty c)

/-- The `[function_call]` opening marker. -/
def openMarker : String := "[function_call]"

/-- The `[/function_call]` closing marker. -/
def closeMarker : String := "[/function_call]"

/-- Scan for the non-greedy global regex
`\[function_call\](.*?)\[\/function_call\]` (with the `s` flag): returns the
captured payloads of all matches in source order, and the residual text left
by replacing every match with the empty string.  Each match pairs the
leftmost remaining opening marker with the nearest closing marker after it,
and scanning resumes after the match, exactly as the JS `matchAll`/`replace`
pair does.  `fuel` only forces termination; callers pass the list length. -/
def blockScanAux (fuel : Nat) (l : List Char) : List (List Char) × List Char :=
  match fuel with
  | 0 => ([], l)
  | fuel + 1 =>
    match splitFirst openMarker.data l with
    | none => ([], l)
    | some (pre, afterOpen) =>
      match splitFirst closeMarker.data afterOpen with
      | none => ([], l)
      | some (payload, rest) =>
        let (ms, res) := blockScanAux fuel rest
        (payload :: ms, pre ++ res)

/-- Block-form scan of a whole string. -/
def blockScan (s : String) : List (List Char) × List Char :=
  blockScanAux s.data.length s.data

/-- Strip a literal prefix, or fail. -/
def stripLit (pat l : List Char) : Option (List Char) :=
  if pat.isPrefixOf l then some (l.drop pat.length) else none

/-- Take a non-empty maximal run of characters satisfying `p`, or fail
(the deterministic reading of a greedy `X+` whose class is disjoint from
what must follow). -/
def takeRun1 (p : Char → Bool) (l : List Char) :
    Option (List Char × List Char) :=
  let t := l.takeWhile p
  if t.isEmpty then none else some (t, l.dropWhile p)

/-- Match the regex `\[tool_call:\s*(\w+)\s+for\s+(\w+)\s+['"]([^'"]+)['"]\]`
at the head of `l`: on success returns (function name, parameter name,
parameter value) and the remainder after the match.  Character classes of
adjacent regex atoms are disjoint, so greedy maximal-run matching is exact. -/
def matchToolCallAt (l : List Char) :
    Option ((String × String × String) × List Char) :=
  match stripLit "[tool_call:".data l with
  | none => none
  | some r0 =>
    let r1 := r0.dropWhile Char.isWhitespace
    match takeRun1 wordChar r1 with
    | none => none
    | some (name, r2) =>
      match takeRun1 Char.isWhitespace r2 with
      | none => none
      | some (_, r3) =>
        match stripLit "for".data r3 with
        | none => none
        | some r4 =>
          match takeRun1 Char.isWhitespace r4 with
          | none => none
          | some (_, r5) =>
            match takeRun1 wordChar r5 with
            | none => none
            | some (param, r6) =>
              match takeRun1 Char.isWhitespace r6 with
              | none => none
              | some (_, r7) =>
                match r7 with
                | q :: r8 =>
                  if isQuote q then
                    match takeRun1 (fun c => !isQuote c) r8 with
                    | none => none
                    | some (value, r9) =>
                      match r9 with
                      | q2 :: r10 =>
                        if isQuote q2 then
                          match r10 with
                          | ']' :: r11 =>
                            some ((String.mk name, String.mk param,
                              String.mk value), r11)
                          | _ => none
                        else none
                      | [] => none
                  else none
                | [] => none

/-- Global scan for the inline tool-call extraction regex: all matches in
source order, scanning position by position and resuming after each match. -/
def toolCallScanAux (fuel : Nat) (l : List Char) :
    List (String × String × String) :=
  match fuel with
  | 0 => []
  | fuel + 1 =>
    match l with
    | [] => []
    | c :: rest =>
      match matchToolCallAt (c :: rest) with
      | some (call, remainder) => call :: toolCallScanAux fuel remainder
      | none => toolCallScanAux fuel rest

/-- Inline tool-call matches of a whole string. -/
def toolCallScan (s : String) : List (String × String × String) :=
  toolCallScanAux s.data.length s.data

/-- Match the removal regex `\s*\[tool_call:[^\]]+\]\s*` at the head of `l`:
returns the remainder after the match. -/
def matchToolRemovalAt (l : List Char) : Option (List Char) :=
  let r0 := l.dropWhile Char.isWhitespace
  match stripLit "[tool_call:".data r0 with
  | none => none
  | some r1 =>
    match takeRun1 (fun c => c != ']') r1 with
    | none => none
    | some (_, r2) =>
      match r2 with
      | ']' :: r3 => some (r3.dropWhile Char.isWhitespace)
      | _ => none

/-- Leftmost-first global replacement of `\s*\[tool_call:[^\]]+\]\s*` by the
empty string.  A match can begin at a position only by consuming the whole
whitespace run there (whitespace cannot match the following literal `[`), so
the positionwise scan is exact. -/
def toolRemoveAux (fuel : Nat) (l : List Char) : List Char :=
  match fuel with
  | 0 => l
  | fuel + 1 =>
    match l with
    | [] => []
    | c :: rest =>
      match matchToolRemovalAt (c :: rest) with
      | some remainder => toolRemoveAux fuel remainder
      | none => c :: toolRemoveAux fuel rest

/-- Inline tool-call removal on a whole string. -/
def toolRemove (s : String) : String :=
  String.mk (toolRemoveAux s.data.length s.data)

/-- Match `Calling function (\w+)` at the head of `l`. -/
def matchSimpleAt (l : List Char) : Option (String × List Char) :=
  match stripLit "Calling function ".data l with
  | none => none
  | some r0 =>
    match takeRun1 wordChar r0 with
    | none => none
    | some (name, r1) => some (String.mk name, r1)

/-- Global scan for `Calling function (\w+)`: all matched names in source
order. -/
def simpleScanAux (fuel : Nat) (l : List Char) : List String :=
  match fuel with
  | 0 => []
  | fuel + 1 =>
    match l with
    | [] => []
    | c :: rest =>
      match matchSimpleAt (c :: rest) with
      | some (name, remainder) => name :: simpleScanAux fuel remainder
      | none => simpleScanAux fuel rest

/-- Natural-language form matches of a whole string. -/
def simpleScan (s : String) : List String :=
  simpleScanAux s.data.length s.data

/-- Match the removal regex `\s*Calling function \w+\s*` at the head. -/
def matchSimpleRemovalAt (l : List Char) : Option (List Char) :=
  let r0 := l.dropWhile Char.isWhitespace
  match stripLit "Calling function ".data r0 with
  | none => none
  | some r1 =>
    match takeRun1 wordChar r1 with
    | none => none
    | some (_, r2) => some (r2.dropWhile Char.isWhitespace)

/-- Global replacement of `\s*Calling function \w+\s*` by the empty string. -/
def simpleRemoveAux (fuel : Nat) (l : List Char) : List Char :=
  match fuel with
  | 0 => l
  | fuel + 1 =>
    match l with
    | [] => []
    | c :: rest =>
      match matchSimpleRemovalAt (c :: rest) with
      | some remainder => simpleRemoveAux fuel remainder
      | none => c :: simpleRemoveAux fuel rest

/-- Natural-language form removal on a whole string. -/
def simpleRemove (s : String) : String :=
  String.mk (simpleRemoveAux s.data.length s.data)

/-- JSON whitespace. -/
def jsonWs (c : Char) : Bool :=
  c = ' ' || c = '\t' || c = '\n' || c = '\r'

/-- Parse a JSON string body after the opening quote, handling the single
character escapes; returns the string and the remainder after the closing
quote.  (`\u` escapes are not modelled; no claim exercises them.) -/
def parseJsonStringAux (fuel : Nat) (l : List Char) :
    Option (List Char × List Char) :=
  match fuel with
  | 0 => none
  | fuel + 1 =>
    match l with
    | [] => none
    | '"' :: rest => some ([], rest)
    | '\\' :: e :: rest =>
      let dec : Option Char :=
        if e = '"' then some '"'
        else if e = '\\' then some '\\'
        else if e = '/' then some '/'
        else if e = 'n' then some '\n'
        else if e = 't' then some '\t'
        else if e = 'r' then some '\r'
        else none
      match dec with
      | none => none
      | some d =>
        match parseJsonStringAux fuel rest with
        | some (cs, rem) => some (d :: cs, rem)
        | none => none
    | c :: rest =>
      match parseJsonStringAux fuel rest with
      | some (cs, rem) => some (c :: cs, rem)
      | none => none

/-- Digits to a natural number. -/
def digitsToNat (ds : List Char) : Nat :=
  ds.foldl (fun n c => n * 10 + (c.toNat - 48)) 0

mutual

/-- Recursive-descent JSON value parser (integer numerals only; fractions and
exponents are not modelled, no claim exercises them).  Returns the value and
the unconsumed remainder. -/
def parseJsonValue (fuel : Nat) (l : List Char) :
    Option (JVal × List Char) :=
  match fuel with
  | 0 => none
  | fuel + 1 =>
    let l := l.dropWhile jsonWs
    match l with
    | [] => none
    | '"' :: rest =>
      match parseJsonStringAux (rest.length + 1) rest with
      | some (cs, rem) => some (.str (String.mk cs), rem)
      | none => none
    | '{' :: rest =>
      let rest' := rest.dropWhile jsonWs
      match rest' with
      | '}' :: rem => some (.obj [], rem)
      | _ =>
        match parseJsonMembers fuel rest with
        | some (fields, rem) => some (.obj fields, rem)
        | none => none
    | '[' :: rest =>
      let rest' := rest.dropWhile jsonWs
      match rest' with
      | ']' :: rem => some (.arr [], rem)
      | _ =>
        match parseJsonElements fuel rest with
        | some (elems, rem) => some (.arr elems, rem)
        | none => none
    | c :: rest =>
      if "true".data.isPrefixOf (c :: rest) then
        some (.bool true, (c :: rest).drop 4)
      else if "false".data.isPrefixOf (c :: rest) then
        some (.bool false, (c :: rest).drop 5)
      else if "null".data.isPrefixOf (c :: rest) then
        some (.null, (c :: rest).drop 4)
      else if c = '-' then
        match takeRun1 Char.isDigit rest with
        | some (ds, rem) => some (.num (-(digitsToNat ds : Int)), rem)
        | none => none
      else if c.isDigit then
        match takeRun1 Char.isDigit (c :: rest) with
        | some (ds, rem) => some (.num (digitsToNat ds : Int), rem)
        | none => none
      else none

/-- Parse one or more `"key": value` members followed by `}`. -/
def parseJsonMembers (fuel : Nat) (l : List Char) :
    Option (List (String × JVal) × List Char) :=
  match fuel with
  | 0 => none
  | fuel + 1 =>
    let l := l.dropWhile jsonWs
    match l with
    | '"' :: rest =>
      match parseJsonStringAux (rest.length + 1) rest with
      | none => none
      | some (key, r1) =>
        let r2 := r1.dropWhile jsonWs
        match r2 with
        | ':' :: r3 =>
          match parseJsonValue fuel r3 with
          | none => none
          | some (v, r4) =>
            let r5 := r4.dropWhile jsonWs
            match r5 with
            | ',' :: r6 =>
              match parseJsonMembers fuel r6 with
              | some (fields, rem) => some ((String.mk key, v) :: fields, rem)
              | none => none
            | '}' :: r6 => some ([(String.mk key, v)], r6)
            | _ => none
        | _ => none
    | _ => none

/-- Parse one or more array elements followed by `]`. -/
def parseJsonElements (fuel : Nat) (l : List Char) :
    Option (List JVal × List Char) :=
  match fuel with
  | 0 => none
  | fuel + 1 =>
    match parseJsonValue fuel l with
    | none => none
    | some (v, r1) =>
      let r2 := r1.dropWhile jsonWs
      match r2 with
      | ',' :: r3 =>
        match parseJsonElements fuel r3 with
        | some (elems, rem) => some (v :: elems, rem)
        | none => none
      | ']' :: r3 => some ([v], r3)
      | _ => none

end

/-- `JSON.parse`: parse a complete JSON text; `none` models a thrown
`SyntaxError`. -/
def parseJson (s : String) : Option JVal :=
  match parseJsonValue (s.data.length + 1) s.data with
  | some (v, rem) => if (rem.dropWhile jsonWs).isEmpty then some v else none
  | none => none

/-- Canonical function call assembled by the extractor.  The source also
attaches a freshly generated random `id`; identifier generation is impure and
not part of this model.  `name` is whatever JS value the payload supplied
(`undefined` when absent), `args` likewise. -/
structure FunctionCall where
  name : JVal
  args : JVal

/-- One part of a normalized response: visible text, a function call, or a
thought fragment (`{thought: true, text}` in the source). -/
inductive RPart where
  | text (s : String)
  | functionCall (fc : FunctionCall)
  | thought (s : String)

/-- Canonical finish reason: `stop` maps to STOP, everything else OTHER. -/
inductive FinishR where
  | STOP
  | OTHER
deriving DecidableEq

/-- Normalized response (the single candidate the source builds; the optional
usage metadata is not modelled, no claim touches it). -/
structure GenResponse where
  parts : List RPart
  finishReason : FinishR
  text : String
  functionCalls : Option (List FunctionCall)

/-- A backend-native structured tool call (`message.tool_calls[i]`), flattened
over the nested `function` field of the source shape. -/
structure NativeToolCall where
  typ : String
  id : String
  name : String
  arguments : String

/-- The `message` of the single choice of a backend chat completion. -/
structure GrokMessage where
  content : Option String
  tool_calls : List NativeToolCall

/-- A backend chat completion reply (`response.choices[0]` is modelled
directly; the claims all concern single-choice replies). -/
structure ChatCompletion where
  message : GrokMessage
  finish_reason : String

/-- Block-form branch guard:
`message.content && message.content.includes('[function_call]')`. -/
def blockGuard (content : Option String) : Bool :=
  strTruthy content && hasSub (contentOrEmpty content) openMarker

/-- Inline-form branch guard:
`message.content && message.content.includes('[tool_call:')`. -/
def toolGuard (content : Option String) : Bool :=
  strTruthy content && hasSub (contentOrEmpty content) "[tool_call:"

/-- Natural-language-form branch guard:
`message.content && message.content.includes('Calling function ')`. -/
def simpleGuard (content : Option String) : Bool :=
  strTruthy content && hasSub (contentOrEmpty content) "Calling function "

/-- One block-form payload to a function call: `JSON.parse(match[1].trim())`,
`name = data.action`, `args = data.action_input || {}`.  A parse failure is
caught (warning logged, block skipped); parsing to JSON `null` also lands in
the catch because `null.action` throws. -/
def mkBlockCall (payload : List Char) : Option FunctionCall :=
  match parseJson (jsTrim (String.mk payload)) with
  | none => none
  | some JVal.null => none
  | some v =>
    some { name := jGet v "action",
           args := if jvTruthy (jGet v "action_input") then
               jGet v "action_input"
             else JVal.obj [] }

/-- All block-form calls of a text, in source order. -/
def blockCalls (s : String) : List FunctionCall :=
  (blockScan s).1.filterMap mkBlockCall

/-- All inline-form calls of a text, in source order:
`name`, one argument `{[paramName]: paramValue}`. -/
def toolFormCalls (s : String) : List FunctionCall :=
  (toolCallScan s).map fun npv =>
    { name := JVal.str npv.1, args := JVal.obj [(npv.2.1, JVal.str npv.2.2)] }

/-- All natural-language-form calls of a text, in source order: zero args. -/
def simpleFormCalls (s : String) : List FunctionCall :=
  (simpleScan s).map fun n => { name := JVal.str n, args := JVal.obj [] }

/-- The function calls the three textual passes push, in push order: all
block-form calls, then all inline-form calls, then all natural-language-form
calls, each pass gated by its `includes` guard. -/
def textualCalls (content : Option String) : List FunctionCall :=
  (if blockGuard content then blockCalls (contentOrEmpty content) else [])
    ++ (if toolGuard content then toolFormCalls (contentOrEmpty content)
      else [])
    ++ (if simpleGuard content then simpleFormCalls (contentOrEmpty content)
      else [])

/-- The final value of `cleanedTextContent`: initialized to the raw content;
each firing pass REASSIGNS it from `message.content` (not from the previous
value), applying only its own removal regex and `trim()`. -/
def cleanedTextOf (content : Option String) : String :=
  let c := contentOrEmpty content
  let c1 := if blockGuard content then jsTrim (String.mk (blockScan c).2)
    else c
  let c2 := if toolGuard content then jsTrim (toolRemove c) else c1
  if simpleGuard content then jsTrim (simpleRemove c) else c2

/-- Convert one structured native tool call (non-streaming path):
entries whose `type` is not `'function'` are skipped;
`JSON.parse(toolCall.function.arguments || '{}')` is NOT inside a try, so a
malformed argument string throws out of the whole conversion. -/
def mkNativeCall (tc : NativeToolCall) : Except JsError (Option FunctionCall) :=
  if tc.typ = "function" then
    match parseJson (if strEmpty tc.arguments then "\x7b\x7d"
        else tc.arguments) with
    | some v => .ok (some { name := JVal.str tc.name, args := v })
    | none => .error ⟨"SyntaxError", "Unexpected token in JSON"⟩
  else .ok none

/-- Convert the native tool-call list of a non-streaming reply. -/
def nativeCallsOf : List NativeToolCall → Except JsError (List FunctionCall)
  | [] => .ok []
  | tc :: rest =>
    match mkNativeCall tc with
    | .error e => .error e
    | .ok none => nativeCallsOf rest
    | .ok (some fc) =>
      match nativeCallsOf rest with
      | .error e => .error e
      | .ok l => .ok (fc :: l)

/-- convertToGeminiResponse of grokContentGenerator.ts (lines 170-289):
normalize a backend reply into the canonical response.  Push order of
`parts`: block-form calls, inline-form calls, natural-language-form calls,
then the cleaned text part (only when non-empty), then native calls. -/
def convertToGeminiResponse (resp : ChatCompletion) :
    Except JsError GenResponse :=
  let m := resp.message
  let tcalls := textualCalls m.content
  let cleaned := cleanedTextOf m.content
  match nativeCallsOf m.tool_calls with
  | .error e => .error e
  | .ok ncs =>
    .ok { parts := tcalls.map RPart.functionCall
            ++ (if strEmpty cleaned then [] else [RPart.text cleaned])
            ++ ncs.map RPart.functionCall,
          finishReason := if resp.finish_reason = "stop" then .STOP
            else .OTHER,
          text := cleaned,
          functionCalls := if (tcalls ++ ncs).isEmpty then none
            else some (tcalls ++ ncs) }

/-- One chunk of a backend stream (`chunk.choices[0]`, with the `delta`
fields the source reads; chunks with no choice are skipped by the source and
not modelled). -/
structure ChunkDelta where
  content : Option String
  reasoning_content : Option String
  tool_calls : List NativeToolCall
  finish_reason : String

/-- Convert one structured native tool call of a stream delta: same as the
non-streaming conversion except that an empty/absent argument string yields
`{}` without parsing (`toolCall.function.arguments ? JSON.parse(...) : {}`). -/
def mkStreamNativeCall (tc : NativeToolCall) :
    Except JsError (Option FunctionCall) :=
  if tc.typ = "function" then
    if strEmpty tc.arguments then
      .ok (some { name := JVal.str tc.name, args := JVal.obj [] })
    else
      match parseJson tc.arguments with
      | some v => .ok (some { name := JVal.str tc.name, args := v })
      | none => .error ⟨"SyntaxError", "Unexpected token in JSON"⟩
  else .ok none

/-- Convert the native tool-call list of one stream delta. -/
def streamNativeCallsOf :
    List NativeToolCall → Except JsError (List FunctionCall)
  | [] => .ok []
  | tc :: rest =>
    match mkStreamNativeCall tc with
    | .error e => .error e
    | .ok none => streamNativeCallsOf rest
    | .ok (some fc) =>
      match streamNativeCallsOf rest with
      | .error e => .error e
      | .ok l => .ok (fc :: l)

/-- One iteration of the stream loop of convertStreamToGeminiFormat
(lines 296-411): given the accumulated buffer and the chunk delta, produce
the new buffer and the list of yielded responses (empty when the chunk
produced no parts).  The block pass fires only when BOTH markers are in the
buffer; each firing pass removes its matches from the buffer, and recomputes
the chunk's visible text from `delta.content` with its own regex only. -/
def streamStep (acc : String) (d : ChunkDelta) :
    Except JsError (String × List GenResponse) :=
  let thoughtParts := if strTruthy d.reasoning_content then
      [RPart.thought ("**Thinking** " ++ contentOrEmpty d.reasoning_content)]
    else []
  let cleaned0 := contentOrEmpty d.content
  let acc1 := if strTruthy d.content then acc ++ contentOrEmpty d.content
    else acc
  let blockFire := hasSub acc1 openMarker && hasSub acc1 closeMarker
  let bcalls := if blockFire then blockCalls acc1 else []
  let acc2 := if blockFire then jsTrim (String.mk (blockScan acc1).2)
    else acc1
  let cleaned1 := if blockFire then jsTrim (String.mk (blockScan cleaned0).2)
    else cleaned0
  let toolFire := hasSub acc2 "[tool_call:"
  let tfcalls := if toolFire then toolFormCalls acc2 else []
  let acc3 := if toolFire then jsTrim (toolRemove acc2) else acc2
  let cleaned2 := if toolFire then jsTrim (toolRemove cleaned0) else cleaned1
  match streamNativeCallsOf d.tool_calls with
  | .error e => .error e
  | .ok ncs =>
    let parts := thoughtParts ++ (bcalls ++ tfcalls).map RPart.functionCall
      ++ (if strEmpty cleaned2 then [] else [RPart.text cleaned2])
      ++ ncs.map RPart.functionCall
    let yields := if parts.isEmpty then ([] : List GenResponse)
      else [{ parts := parts,
              finishReason := if d.finish_reason = "stop" then .STOP
                else .OTHER,
              text := cleaned2,
              functionCalls := if (bcalls ++ tfcalls ++ ncs).isEmpty then none
                else some (bcalls ++ tfcalls ++ ncs) }]
    .ok (acc3, yields)

/-- Drive the stream loop over a whole chunk list, threading the buffer. -/
def runStreamLoop :
    List ChunkDelta → String → Except JsError (List GenResponse)
  | [], _ => .ok []
  | d :: rest, acc =>
    match streamStep acc d with
    | .error e => .error e
    | .ok (acc', ys) =>
      match runStreamLoop rest acc' with
      | .error e => .error e
      | .ok tail => .ok (ys ++ tail)

/-- convertStreamToGeminiFormat (lines 291-412): the sequence of responses a
full drain of the stream yields, starting from an empty buffer. -/
def convertStreamToGeminiFormat (chunks : List ChunkDelta) :
    Except JsError (List GenResponse) :=
  runStreamLoop chunks ""

/-- A Gemini-format request part as read by extractTextFromParts: the three
optional fields the source inspects (`text`, `functionResponse.name`,
`functionCall.name`). -/
structure GPart where
  text : Option String
  functionResponseName : Option String
  functionCallName : Option String

/-- A Gemini `Content`: role plus parts (the `parts` field is optional in the
source, read as `content.parts || []`). -/
structure ChatContent where
  role : String
  parts : Option (List GPart)

/-- One element of the request `contents`: a bare string, a Content object, or
any other value (which fails the source's `isContent` duck-typing check and is
skipped). -/
inductive ContentItem where
  | str (s : String)
  | content (c : ChatContent)
  | other

/-- The `request.contents` union: absent/null, a single value, or an array. -/
inductive ContentsU where
  | none
  | one (item : ContentItem)
  | many (items : List ContentItem)

/-- JS truthiness of `request.contents` (absent and the empty string are
falsy; an empty ARRAY is truthy). -/
def contentsTruthy : ContentsU → Bool
  | .none => false
  | .one (.str s) => !(strEmpty s)
  | .one _ => true
  | .many _ => true

/-- `Array.isArray(contents) ? contents : [contents]`. -/
def contentArray : ContentsU → List ContentItem
  | .none => [.other]
  | .one item => [item]
  | .many items => items

/-- Join with a single-space separator (`Array.prototype.join(' ')`: empty
elements still contribute separators). -/
def joinSpace : List String → String
  | [] => ""
  | [s] => s
  | s :: rest => s ++ " " ++ joinSpace rest

/-- extractTextFromParts (lines 158-168): text when truthy, else a
descriptive fragment for structured function responses/calls, else dropped;
non-empty fragments joined by spaces (`filter(Boolean).join(' ')`). -/
def extractTextFromParts (parts : List GPart) : String :=
  joinSpace ((parts.map fun p =>
    if strTruthy p.text then contentOrEmpty p.text
    else if strTruthy p.functionResponseName then
      "Function " ++ contentOrEmpty p.functionResponseName ++ " executed"
    else if strTruthy p.functionCallName then
      "Calling function " ++ contentOrEmpty p.functionCallName
    else "").filter fun s => !s.isEmpty)

/-- An OpenAI-format chat message. -/
structure OAMessage where
  role : String
  content : String

/-- The `systemInstruction` union: a bare string, a Content, or another
value. -/
inductive SysInstr where
  | str (s : String)
  | content (c : ChatContent)
  | other

/-- A declared tool function (name/description/parameters passed through;
parameters are an opaque JSON value here). -/
structure FuncDecl where
  name : String
  description : String
  parameters : JVal

/-- A Gemini tool: a list of function declarations (tools without
`functionDeclarations` contribute nothing). -/
structure GTool where
  functionDeclarations : Option (List FuncDecl)

/-- The request config fields the source reads (the numeric sampling
parameters are passed through untouched and are not modelled). -/
structure GenConfig where
  systemInstruction : Option SysInstr
  tools : Option (List GTool)

/-- A canonical generation request. -/
structure GenRequest where
  model : Option String
  contents : ContentsU
  config : Option GenConfig

/-- An OpenAI tool declaration after conversion. -/
structure OATool where
  name : String
  description : String
  parameters : JVal

/-- The OpenAI-format request the source builds (sampling passthrough fields
omitted). -/
structure OAIRequest where
  model : String
  messages : List OAMessage
  tools : Option (List OATool)
  tool_choice : Option String

/-- convertToolsToOpenAIFormat (lines 133-152). -/
def convertToolsToOpenAIFormat (geminiTools : List GTool) : List OATool :=
  geminiTools.flatMap fun tool =>
    match tool.functionDeclarations with
    | some funcs => funcs.map fun f =>
        { name := f.name, description := f.description,
          parameters := f.parameters }
    | none => []

/-- Convert one contents item to its OpenAI messages (strings become user
turns; Content objects keep only user/model roles, and a model turn whose
extracted text is empty is dropped; anything else is skipped). -/
def itemMessages (item : ContentItem) : List OAMessage :=
  match item with
  | .str s => [{ role := "user", content := s }]
  | .content c =>
    if c.role = "user" then
      [{ role := "user",
         content := extractTextFromParts (c.parts.getD []) }]
    else if c.role = "model" then
      let t := extractTextFromParts (c.parts.getD [])
      if strEmpty t then [] else [{ role := "assistant", content := t }]
    else []
  | .other => []

/-- System-instruction prepend (`messages.unshift(...)`): the source mutates
the same array the OpenAI request references, so the effective message list is
the prepended system message (when present and non-empty) followed by the
converted turns. -/
def systemMessages (cfg : Option GenConfig) : List OAMessage :=
  match cfg with
  | none => []
  | some c =>
    match c.systemInstruction with
    | none => []
    | some (.str s) => [{ role := "system", content := s }]
    | some (.content cc) =>
      match cc.parts with
      | none => []
      | some ps =>
        let t := extractTextFromParts ps
        if strEmpty t then [] else [{ role := "system", content := t }]
    | some .other => []

/-- convertToOpenAIRequest (lines 57-131). -/
def convertToOpenAIRequest (request : GenRequest) : OAIRequest :=
  let base := if contentsTruthy request.contents then
      (contentArray request.contents).flatMap itemMessages
    else []
  let msgs := systemMessages request.config ++ base
  let tools := match request.config with
    | some cfg =>
      match cfg.tools with
      | some ts => if ts.isEmpty then none
        else some (convertToolsToOpenAIFormat ts)
      | none => none
    | none => none
  { model := if strTruthy request.model then contentOrEmpty request.model
      else "grok-beta",
    messages := msgs,
    tools := tools,
    tool_choice := if tools.isSome then some "auto" else none }

/-- The observable action generateContent takes before any backend reply:
either a network call with the converted request, or a failure raised before
calling.  The source (lines 32-42) converts and calls unconditionally — the
`fail` constructor exists to state the validation behavior the specification
claims. -/
inductive NetEffect where
  | call (req : OAIRequest)
  | fail (e : JsError)

/-- generateContent up to its network call (lines 32-42): no validation, the
converted request is always sent. -/
def generateContentAction (request : GenRequest) : NetEffect :=
  .call (convertToOpenAIRequest request)

/-- The token-counting request parameters (only `contents` is read). -/
structure CountParams where
  contents : ContentsU

/-- countTokens (lines 415-438): falsy contents give 0; otherwise the item
texts are joined with spaces and estimated at ~4 characters per token
(`Math.ceil(length / 4)`). -/
def countTokens (request : CountParams) : Nat :=
  if contentsTruthy request.contents = false then 0
  else
    let textContent :=
      joinSpace ((contentArray request.contents).map fun item =>
        match item with
        | .str s => s
        | .content c => extractTextFromParts (c.parts.getD [])
        | .other => "")
    (textContent.data.length + 3) / 4

/-- The embedding request parameters (ignored entirely by the source). -/
structure EmbedParams where
  contents : ContentsU

/-- The embedding response shape (never constructed by the source). -/
structure EmbedResponse where
  embeddings : List (List Int)

/-- embedContent (lines 440-443): unconditionally
`throw new Error('Embeddings not supported by Grok')`. -/
def embedContent (_request : EmbedParams) : Except JsError EmbedResponse :=
  .error ⟨"Error", "Embeddings not supported by Grok"⟩

/-- estimateTokens of the ReadManyFiles tool (part_006 lines 720-723):
`Math.ceil(content.length / 4)`. -/
def estimateTokens (content : String) : Nat :=
  (content.data.length + 3) / 4

/-- The fixed smart-selection read budget (part_006 line 557). -/
def maxTokenBudget : Nat := 100000

/-- One file of the budgeted-read stage: its display path and the result of
`processSingleFileContent` (`some` when the read succeeded with string
content; `none` models both a read error, which the catch skips, and
non-string content, which the type guard skips). -/
structure SelFile where
  relPath : String
  read : Option String

/-- `DEFAULT_OUTPUT_SEPARATOR_FORMAT.replace('\x7bfilePath\x7d', path)` with
the template `--- \x7bfilePath\x7d ---`. -/
def sepFor (relPath : String) : String :=
  "--- " ++ relPath ++ " ---"

/-- One push onto `contentParts` in the budgeted-read loop: a full file, or
the single truncated file appended when the budget would be exceeded. -/
inductive PartPush where
  | full (sep content : String)
  | trunc (sep content : String)

/-- Render one push into the literal string the source appends (the trunc
form carries the one truncation marker). -/
def renderPush : PartPush → String
  | .full sep c => sep ++ "\n\n" ++ c ++ "\n\n"
  | .trunc sep c =>
    sep ++ "\n\n" ++ c ++ "\n\n[Content truncated due to token limits]\n\n"

/-- The content string carried by a push. -/
def pushContent : PartPush → String
  | .full _ c => c
  | .trunc _ c => c

/-- Whether a push is the truncated one. -/
def isTrunc : PartPush → Bool
  | .full _ _ => false
  | .trunc _ _ => true

/-- `substring(0, n)`. -/
def jsSubstrTo (s : String) (n : Nat) : String :=
  String.mk (s.data.take n)

/-- Stage 4 of executeWithSmartSelection (part_006 lines 553-590): read the
selected files in order against the running token total.  Unreadable files
are skipped; a file whose estimated cost would exceed the budget is truncated
to `remainingTokens * 4` characters (`Math.max(0, ...)` is the identity here
because the running total never exceeds the budget), pushed with the
truncation marker, and the loop breaks.  The abort signal is not modelled
(never aborted). -/
def budgetedReadLoop : List SelFile → Nat → List PartPush
  | [], _ => []
  | f :: rest, totalTokens =>
    match f.read with
    | none => budgetedReadLoop rest totalTokens
    | some content =>
      let contentTokens := estimateTokens content
      if totalTokens + contentTokens > maxTokenBudget then
        let remainingTokens := maxTokenBudget - totalTokens
        let truncatedLength := remainingTokens * 4
        [.trunc (sepFor f.relPath) (jsSubstrTo content truncatedLength)]
      else
        .full (sepFor f.relPath) content ::
          budgetedReadLoop rest (totalTokens + contentTokens)

/-- The budgeted-read stage from a zero running total. -/
def budgetedRead (files : List SelFile) : List PartPush :=
  budgetedReadLoop files 0

/-- Sum of the estimated token counts of the pushed file contents. -/
def tokenSum (pushes : List PartPush) : Nat :=
  (pushes.map fun p => estimateTokens (pushContent p)).sum

/-- Maximal runs of decimal digits, as the global regex `\d+` matches them
(`fuel` only forces termination; the wrapper passes the list length). -/
def digitRunsAux (fuel : Nat) (l : List Char) : List (List Char) :=
  match fuel with
  | 0 => []
  | fuel + 1 =>
    match l with
    | [] => []
    | c :: rest =>
      if c.isDigit then
        (c :: rest.takeWhile Char.isDigit) ::
          digitRunsAux fuel (rest.dropWhile Char.isDigit)
      else digitRunsAux fuel rest

/-- Maximal digit runs of a list. -/
def digitRuns (l : List Char) : List (List Char) :=
  digitRunsAux l.length l

/-- parseSelectionResponse (part_006 lines 613-625): every integer token of
the response, kept when in range 1..100, in source order, duplicates
included. -/
def parseSelectionResponse (response : String) : List Nat :=
  ((digitRuns response.data).map digitsToNat).filter fun n =>
    decide (0 < n) && decide (n ≤ 100)

/-- JS indexing `sortedFiles[num - 1]` (undefined out of range). -/
def jsIndex (l : List String) (i : Int) : Option String :=
  if i < 0 then Option.none else l.get? i.toNat

/-- Stage 3 of executeWithSmartSelection (part_006 lines 540-551): map the
parsed numbers to files, `filter(Boolean)` (dropping out-of-range indices and
empty paths), cap at 20; an empty result falls back to the first 10
candidates in sort order. -/
def selectFiles (selectedNumbers : List Nat) (sortedFiles : List String) :
    List String :=
  let selected := ((selectedNumbers.filterMap fun num =>
      match jsIndex sortedFiles (Int.ofNat num - 1) with
      | some s => if strEmpty s then Option.none else some s
      | none => Option.none)).take 20
  if selected.isEmpty then sortedFiles.take 10 else selected

/-- A single-quote character, used to build example strings. -/
def SQ : String := String.mk [Char.ofNat 39]

/-- Unfolding lemma for strEmpty on an explicit character list. -/
theorem strEmpty_mk (l : List Char) : strEmpty (String.mk l) = l.isEmpty :=
  rfl

/-- The degenerate generation request of claim C4: an empty contents array,
which converts to an empty backend message list. -/
def emptyGenRequest : GenRequest :=
  { model := Option.none, contents := ContentsU.many [], config := Option.none }

/-- Whether a pre-network effect is a raised failure. -/
def isNetFail : NetEffect → Bool
  | .call _ => false
  | .fail _ => true

/-- C8 counterexample: the claim says embedContent fails with a DISTINCT
UnsupportedOperation error; on the concrete (ignored) request the thrown
value is a plain generic `Error` whose class name is "Error", not an
UnsupportedOperation. -/
theorem c8_counterexample :
    embedContent { contents := ContentsU.none } =
      Except.error ⟨"Error", "Embeddings not supported by Grok"⟩ ∧
    (("Error" : String) == "UnsupportedOperation") = false := by
  exact ⟨rfl, rfl⟩

/-- C8 (amended): embedContent fails for every request, always by throwing
the same generic `Error` with message "Embeddings not supported by Grok"
(so it never returns an empty or zero embedding result); the error is not a
distinct UnsupportedOperation class. -/
theorem c8_embed_always_generic_error (request : EmbedParams) :
    embedContent request =
      Except.error ⟨"Error", "Embeddings not supported by Grok"⟩ :=
  rfl

/-- C4 counterexample: on the request with an empty message list,
generateContent does not fail at all — it issues the network call (there is
no ValidationError in the code). -/
theorem c4_counterexample :
    isNetFail (generateContentAction emptyGenRequest) = false ∧
    (convertToOpenAIRequest emptyGenRequest).messages = [] := by
  exact ⟨rfl, rfl⟩

/-- C4 (amended): generateContent performs no validation of degenerate
requests: a request whose converted message list is empty is still sent —
the observable effect is the network call carrying an empty `messages`
array, with default model and no tools. -/
theorem c4_no_validation_network_call :
    generateContentAction emptyGenRequest =
      NetEffect.call ⟨"grok-beta", [], Option.none, Option.none⟩ :=
  rfl

/-- C9: countTokens on a single-text-string request returns
ceil(length / 4); absent contents give 0; the estimate is monotone in the
input length. -/
theorem c9_countTokens_estimate (s t : String)
    (h : s.data.length ≤ t.data.length) :
    countTokens { contents := ContentsU.one (ContentItem.str s) } =
      (s.data.length + 3) / 4 ∧
    countTokens { contents := ContentsU.none } = 0 ∧
    countTokens { contents := ContentsU.one (ContentItem.str s) } ≤
      countTokens { contents := ContentsU.one (ContentItem.str t) } := by
  have key : ∀ u : String,
      countTokens { contents := ContentsU.one (ContentItem.str u) } =
        (u.data.length + 3) / 4 := by
    intro u
    by_cases hu : u.data.isEmpty
    · have hn : u.data = [] := List.isEmpty_iff.mp hu
      simp [countTokens, contentsTruthy, strEmpty, hu, hn]
    · simp [countTokens, contentsTruthy, strEmpty, hu, contentArray,
        joinSpace]
  refine ⟨key s, by simp [countTokens, contentsTruthy], ?_⟩
  rw [key s, key t]
  exact Nat.div_le_div_right (Nat.add_le_add_right h 3)

/-- Unfolding lemma: the character list of a constructed string. -/
theorem data_mk (l : List Char) : (String.mk l).data = l :=
  rfl

/-- A 400-character string. -/
def str400 : String := String.mk (List.replicate 400 'a')

/-- C9 witness: at the concrete inputs of the claim, the empty string counts
0 tokens, the 400-character string counts 100, and the estimate is monotone
between them. -/
theorem c9_witness :
    countTokens { contents := ContentsU.one (ContentItem.str "") } = 0 ∧
    countTokens { contents := ContentsU.one (ContentItem.str str400) } = 100 ∧
    countTokens { contents := ContentsU.one (ContentItem.str "") } ≤
      countTokens { contents := ContentsU.one (ContentItem.str str400) } := by
  have hlen : str400.data.length = 400 := by
    rw [str400, data_mk, List.length_replicate]
  have h0 : ("" : String).data.length ≤ str400.data.length := by
    simp [hlen]
  have h := c9_countTokens_estimate "" str400 h0
  refine ⟨by simpa using h.1, ?_, h.2.2⟩
  have h' := (c9_countTokens_estimate str400 str400 le_rfl).1
  rw [h', hlen]

/-- The backend reply text of claim C5: exactly one block-form marker with a
JSON payload naming action `foo` and argument mapping `{x: 1}`. -/
def exC5 : String :=
  "[function_call]\x7b\"action\":\"foo\",\"action_input\":\x7b\"x\":1\x7d\x7d[/function_call]"

/-- C5: on a reply whose text is exactly the block marker with payload
`{"action":"foo","action_input":{"x":1}}`, extraction yields exactly one
FunctionCall named "foo" with args `{x: 1}`, the visible text is empty (the
marker is gone), and the top-level functionCalls list carries the same single
call. -/
theorem c5_block_form_extraction :
    convertToGeminiResponse ⟨⟨some exC5, []⟩, "stop"⟩ =
      Except.ok
        { parts := [RPart.functionCall
            ⟨JVal.str "foo", JVal.obj [("x", JVal.num 1)]⟩],
          finishReason := FinishR.STOP,
          text := "",
          functionCalls :=
            some [⟨JVal.str "foo", JVal.obj [("x", JVal.num 1)]⟩] } ∧
    hasSub "" "[function_call]" = false := by
  exact ⟨rfl, rfl⟩

/-- Normalization of a reply without any marker trigger substring: the
identity on the visible text, no extracted calls (shared helper). -/
theorem convert_plain_reply (content fr : String)
    (h1 : hasSub content "[function_call]" = false)
    (h2 : hasSub content "[tool_call:" = false)
    (h3 : hasSub content "Calling function " = false) :
    convertToGeminiResponse ⟨⟨some content, []⟩, fr⟩ =
      Except.ok
        { parts := if strEmpty content then [] else [RPart.text content],
          finishReason := if fr = "stop" then FinishR.STOP else FinishR.OTHER,
          text := content,
          functionCalls := none } := by
  have hb : blockGuard (some content) = false := by
    simp [blockGuard, openMarker, contentOrEmpty, h1]
  have ht : toolGuard (some content) = false := by
    simp [toolGuard, contentOrEmpty, h2]
  have hs : simpleGuard (some content) = false := by
    simp [simpleGuard, contentOrEmpty, h3]
  simp [convertToGeminiResponse, textualCalls, cleanedTextOf, hb, ht, hs,
    nativeCallsOf, contentOrEmpty]

/-- C7: on a reply whose text contains none of the three marker trigger
substrings (and no native tool calls), normalization is the identity on the
visible text: the only part is the unchanged text (none when empty) and no
FunctionCall part is produced. -/
theorem c7_no_marker_identity (content fr : String)
    (h1 : hasSub content "[function_call]" = false)
    (h2 : hasSub content "[tool_call:" = false)
    (h3 : hasSub content "Calling function " = false) :
    convertToGeminiResponse ⟨⟨some content, []⟩, fr⟩ =
      Except.ok
        { parts := if strEmpty content then [] else [RPart.text content],
          finishReason := if fr = "stop" then FinishR.STOP else FinishR.OTHER,
          text := content,
          functionCalls := none } :=
  convert_plain_reply content fr h1 h2 h3

/-- C7 witness: the theorem applied to the concrete plain reply
"Hello there". -/
theorem c7_witness :
    convertToGeminiResponse ⟨⟨some "Hello there", []⟩, "stop"⟩ =
      Except.ok
        { parts := [RPart.text "Hello there"],
          finishReason := FinishR.STOP,
          text := "Hello there",
          functionCalls := none } :=
  (c7_no_marker_identity "Hello there" "stop" rfl rfl rfl).trans rfl

/-- C10: when a reply contains both a block-form trigger and an inline-form
trigger (and no natural-language trigger), the emitted visible text is
recomputed from the RAW content by the inline pass alone — the block pass's
removal is discarded, so block markers survive in the visible text. -/
theorem c10_last_pass_recomputes_from_raw (content fr : String)
    (h1 : hasSub content "[function_call]" = true)
    (h2 : hasSub content "[tool_call:" = true)
    (h3 : hasSub content "Calling function " = false) :
    ∃ res, convertToGeminiResponse ⟨⟨some content, []⟩, fr⟩ =
      Except.ok res ∧ res.text = jsTrim (toolRemove content) := by
  have hne : strEmpty content = false := by
    cases hc : content.data with
    | nil =>
      rw [hasSub, hc] at h1
      exact absurd h1 (by decide)
    | cons a l => simp [strEmpty, hc]
  have hb : blockGuard (some content) = true := by
    simp [blockGuard, strTruthy, hne, openMarker, contentOrEmpty, h1]
  have ht : toolGuard (some content) = true := by
    simp [toolGuard, strTruthy, hne, contentOrEmpty, h2]
  have hs : simpleGuard (some content) = false := by
    simp [simpleGuard, contentOrEmpty, h3]
  refine ⟨_, rfl, ?_⟩
  show cleanedTextOf (some content) = jsTrim (toolRemove content)
  simp [cleanedTextOf, hb, ht, hs, contentOrEmpty]

/-- The reply text of the C10 witness: a block marker, some prose, then an
inline marker. -/
def exC10 : String :=
  "[function_call]\x7b\"action\":\"f\",\"action_input\":\x7b\x7d\x7d[/function_call] ok [tool_call: g for p "
    ++ SQ ++ "v" ++ SQ ++ "]"

/-- The normalized response of the C10 witness reply. -/
def exC10Resp : GenResponse :=
  { parts := [RPart.functionCall ⟨JVal.str "f", JVal.obj []⟩,
      RPart.functionCall ⟨JVal.str "g", JVal.obj [("p", JVal.str "v")]⟩,
      RPart.text ("[function_call]\x7b\"action\":\"f\",\"action_input\":\x7b\x7d\x7d[/function_call] ok")],
    finishReason := FinishR.STOP,
    text := "[function_call]\x7b\"action\":\"f\",\"action_input\":\x7b\x7d\x7d[/function_call] ok",
    functionCalls := some [⟨JVal.str "f", JVal.obj []⟩,
      ⟨JVal.str "g", JVal.obj [("p", JVal.str "v")]⟩] }

/-- C10 witness: on the concrete two-form reply the visible text is the raw
content with only the inline marker removed, and the block marker is still
present in it. -/
theorem c10_witness :
    convertToGeminiResponse ⟨⟨some exC10, []⟩, "stop"⟩ =
      Except.ok exC10Resp ∧
    exC10Resp.text = jsTrim (toolRemove exC10) ∧
    hasSub exC10Resp.text "[function_call]" = true := by
  refine ⟨rfl, ?_, rfl⟩
  obtain ⟨res, hok, htext⟩ :=
    c10_last_pass_recomputes_from_raw exC10 "stop" rfl rfl rfl
  have hres : res = exC10Resp :=
    Except.ok.inj (hok.symm.trans
      (show convertToGeminiResponse ⟨⟨some exC10, []⟩, "stop"⟩ =
        Except.ok exC10Resp from rfl))
  rw [← hres, htext]

/-- Discrimination: a part cannot be both a function call and a text part. -/
def isFnCallPart : RPart → Bool
  | .functionCall _ => true
  | _ => false

/-- Whether a part is a visible text part. -/
def isTextPart : RPart → Bool
  | .text _ => true
  | _ => false

/-- In a list made of function-call parts followed by text parts, every
function-call index precedes every text index. -/
theorem fn_before_text_of_append (A B : List RPart)
    (hA : ∀ p ∈ A, isFnCallPart p = true)
    (hB : ∀ p ∈ B, isTextPart p = true)
    (i j : Nat) (hi : i < (A ++ B).length) (hj : j < (A ++ B).length)
    (hfc : isFnCallPart ((A ++ B)[i]) = true)
    (htx : isTextPart ((A ++ B)[j]) = true) : i < j := by
  have hiA : i < A.length := by
    by_contra hge
    push_neg at hge
    rw [List.getElem_append_right hge] at hfc
    have hilen : i - A.length < B.length := by
      simp at hi
      omega
    have hmem : B[i - A.length] ∈ B := List.getElem_mem hilen
    have hb := hB _ hmem
    revert hb hfc
    cases B[i - A.length] <;> simp [isFnCallPart, isTextPart]
  have hjB : A.length ≤ j := by
    by_contra hlt
    push_neg at hlt
    rw [List.getElem_append_left hlt] at htx
    have hmem : A[j] ∈ A := List.getElem_mem hlt
    have ha := hA _ hmem
    revert ha htx
    cases A[j] <;> simp [isFnCallPart, isTextPart]
  omega

/-- C3 (amended): in the normalized reply (no native tool calls), the
FunctionCall parts extracted from the textual marker forms appear BEFORE the
cleaned text part, grouped by form in processing order (block, inline,
natural-language), each form's matches in source order; every function-call
index precedes every text index. -/
theorem c3_textual_calls_precede_text (content fr : String) :
    ∃ res, convertToGeminiResponse ⟨⟨some content, []⟩, fr⟩ =
      Except.ok res ∧
      res.parts = (textualCalls (some content)).map RPart.functionCall ++
        (if strEmpty (cleanedTextOf (some content)) then []
          else [RPart.text (cleanedTextOf (some content))]) ∧
      (∀ i j (hi : i < res.parts.length) (hj : j < res.parts.length),
        isFnCallPart res.parts[i] = true →
        isTextPart res.parts[j] = true → i < j) := by
  have hok : convertToGeminiResponse ⟨⟨some content, []⟩, fr⟩ =
      Except.ok
        { parts := (textualCalls (some content)).map RPart.functionCall ++
            (if strEmpty (cleanedTextOf (some content)) then []
              else [RPart.text (cleanedTextOf (some content))]),
          finishReason := if fr = "stop" then FinishR.STOP else FinishR.OTHER,
          text := cleanedTextOf (some content),
          functionCalls := if (textualCalls (some content)).isEmpty then none
            else some (textualCalls (some content)) } := by
    simp [convertToGeminiResponse, nativeCallsOf]
    rw [List.append_nil]
  refine ⟨_, hok, rfl, ?_⟩
  intro i j hi hj hfc htx
  refine fn_before_text_of_append _ _ ?_ ?_ i j hi hj hfc htx
  · intro p hp
    obtain ⟨fc, _, rfl⟩ := List.mem_map.mp hp
    rfl
  · intro p hp
    revert hp
    split
    · intro hp
      simp at hp
    · intro hp
      simp at hp
      rw [hp]
      rfl

/-- The single-inline-marker reply used against claim C3. -/
def exC3a : String := "hi [tool_call: f for p " ++ SQ ++ "v" ++ SQ ++ "]"

/-- The two-form reply used against claim C3 (inline marker first in the
source text, block marker second). -/
def exC3b : String :=
  "[tool_call: g for p " ++ SQ ++ "v" ++ SQ
    ++ "] [function_call]\x7b\"action\":\"f\",\"action_input\":\x7b\x7d\x7d[/function_call]"

/-- The normalized response of exC3a. -/
def exC3aResp : GenResponse :=
  { parts := [RPart.functionCall ⟨JVal.str "f",
      JVal.obj [("p", JVal.str "v")]⟩, RPart.text "hi"],
    finishReason := FinishR.STOP,
    text := "hi",
    functionCalls := some [⟨JVal.str "f", JVal.obj [("p", JVal.str "v")]⟩] }

/-- C3 counterexample: the claim says the extracted FunctionCall parts come
AFTER the cleaned text part and in source order.  On exC3a the single call
part is at index 0 and the text part at index 1 (call BEFORE text); on exC3b
the block-form call `f` precedes the inline-form call `g` even though `g`'s
marker occurs first in the source text. -/
theorem c3_counterexample :
    convertToGeminiResponse ⟨⟨some exC3a, []⟩, "stop"⟩ =
      Except.ok exC3aResp ∧
    isFnCallPart (exC3aResp.parts.headD (RPart.text "")) = true ∧
    isTextPart (exC3aResp.parts.getD 1 (RPart.text "")) = true ∧
    convertToGeminiResponse ⟨⟨some exC3b, []⟩, "stop"⟩ =
      Except.ok
        { parts := [RPart.functionCall ⟨JVal.str "f", JVal.obj []⟩,
            RPart.functionCall ⟨JVal.str "g",
              JVal.obj [("p", JVal.str "v")]⟩,
            RPart.text ("[function_call]\x7b\"action\":\"f\",\"action_input\":\x7b\x7d\x7d[/function_call]")],
          finishReason := FinishR.STOP,
          text := "[function_call]\x7b\"action\":\"f\",\"action_input\":\x7b\x7d\x7d[/function_call]",
          functionCalls := some [⟨JVal.str "f", JVal.obj []⟩,
            ⟨JVal.str "g", JVal.obj [("p", JVal.str "v")]⟩] } := by
  exact ⟨rfl, rfl, rfl, rfl⟩

/-- C3 witness: the amended theorem applied to the concrete reply exC3a,
whose call part (index 0) indeed precedes its text part (index 1). -/
theorem c3_witness :
    convertToGeminiResponse ⟨⟨some exC3a, []⟩, "stop"⟩ =
      Except.ok exC3aResp ∧ (0 : Nat) < 1 := by
  refine ⟨rfl, ?_⟩
  obtain ⟨res, hok, _, horder⟩ := c3_textual_calls_precede_text exC3a "stop"
  have hres : res = exC3aResp :=
    Except.ok.inj (hok.symm.trans
      (show convertToGeminiResponse ⟨⟨some exC3a, []⟩, "stop"⟩ =
        Except.ok exC3aResp from rfl))
  subst hres
  exact horder 0 1 (by decide) (by decide) rfl rfl

/-- digitRunsAux of a digit-free list is empty. -/
theorem digitRunsAux_eq_nil_of_no_digit (fuel : Nat) (l : List Char)
    (h : ∀ c ∈ l, c.isDigit = false) : digitRunsAux fuel l = [] := by
  induction fuel generalizing l with
  | zero => rfl
  | succ fuel ih =>
    cases l with
    | nil => rfl
    | cons c rest =>
      have hc := h c (by simp)
      simp only [digitRunsAux, hc, Bool.false_eq_true, if_false]
      exact ih rest fun d hd => h d (by simp [hd])

/-- digitRuns of a digit-free list is empty. -/
theorem digitRuns_eq_nil_of_no_digit (l : List Char)
    (h : ∀ c ∈ l, c.isDigit = false) : digitRuns l = [] :=
  digitRunsAux_eq_nil_of_no_digit l.length l h

/-- The selection response of claim C6: "I'd pick 2, 5 and 9". -/
def c6input : String := "I" ++ SQ ++ "d pick 2, 5 and 9"

/-- C6 (amended): selection parsing extracts every integer token in range
1..100 in source order (without de-duplicating); on "I'd pick 2, 5 and 9" it
yields [2,5,9]; a digit-free response parses to the empty list, in which case
the pipeline substitutes the first 10 candidates in sort order; the selected
file list is always capped at 20. -/
theorem c6_selection_parsing :
    parseSelectionResponse c6input = [2, 5, 9] ∧
    (∀ s : String, ∀ n ∈ parseSelectionResponse s, 1 ≤ n ∧ n ≤ 100) ∧
    (∀ s : String, (∀ c ∈ s.data, c.isDigit = false) →
      parseSelectionResponse s = []) ∧
    (∀ s : String, ∀ sorted : List String,
      (∀ c ∈ s.data, c.isDigit = false) →
      selectFiles (parseSelectionResponse s) sorted = sorted.take 10) ∧
    (∀ nums : List Nat, ∀ sorted : List String,
      (selectFiles nums sorted).length ≤ 20) := by
  have hnil : ∀ s : String, (∀ c ∈ s.data, c.isDigit = false) →
      parseSelectionResponse s = [] := by
    intro s hs
    unfold parseSelectionResponse
    rw [digitRuns_eq_nil_of_no_digit s.data hs]
    rfl
  refine ⟨rfl, ?_, hnil, ?_, ?_⟩
  · intro s n hn
    have := List.of_mem_filter hn
    simp at this
    omega
  · intro s sorted hs
    rw [hnil s hs]
    simp [selectFiles]
  · intro nums sorted
    simp only [selectFiles]
    split
    · exact le_trans (List.length_take_le 10 sorted) (by norm_num)
    · exact List.length_take_le 20 _

/-- C6 counterexample: the claim says the parsed selection is de-duplicated;
on the response "2 2" the parser returns the number 2 twice. -/
theorem c6_counterexample :
    parseSelectionResponse "2 2" = [2, 2] ∧
    (parseSelectionResponse "2 2").count 2 = 2 := by
  exact ⟨rfl, rfl⟩

/-- C6 witness: the theorem applied to the concrete digit-free response
"none of these" over three candidate files. -/
theorem c6_witness :
    parseSelectionResponse "none of these" = [] ∧
    selectFiles (parseSelectionResponse "none of these")
      ["a.ts", "b.ts", "c.ts"] = ["a.ts", "b.ts", "c.ts"] ∧
    parseSelectionResponse c6input = [2, 5, 9] := by
  have h := c6_selection_parsing
  refine ⟨h.2.2.1 "none of these" (by decide), ?_, h.1⟩
  have := h.2.2.2.1 "none of these" ["a.ts", "b.ts", "c.ts"] (by decide)
  simpa using this

/-- tokenSum distributes over cons. -/
theorem tokenSum_cons (p : PartPush) (l : List PartPush) :
    tokenSum (p :: l) = estimateTokens (pushContent p) + tokenSum l := by
  simp [tokenSum]

/-- Invariant of the budgeted-read loop, generalized over the running total:
the total estimated cost of the pushed contents stays within the budget, at
most one push is truncated, and a truncated push is final, costed exactly at
the remaining budget, with its content cut to that remainder times four
characters. -/
theorem budgetedReadLoop_spec (files : List SelFile) :
    ∀ t : Nat, t ≤ maxTokenBudget →
      t + tokenSum (budgetedReadLoop files t) ≤ maxTokenBudget ∧
      (budgetedReadLoop files t).countP (fun p => isTrunc p) ≤ 1 ∧
      (∀ pre sep c post,
        budgetedReadLoop files t = pre ++ PartPush.trunc sep c :: post →
        post = [] ∧
        estimateTokens c = maxTokenBudget - (t + tokenSum pre) ∧
        c.data.length = (maxTokenBudget - (t + tokenSum pre)) * 4) := by
  induction files with
  | nil =>
    intro t ht
    refine ⟨by simpa [budgetedReadLoop, tokenSum] using ht,
      by simp [budgetedReadLoop], ?_⟩
    intro pre sep c post hEq
    rw [budgetedReadLoop] at hEq
    cases pre <;> simp at hEq
  | cons f rest ih =>
    intro t ht
    cases hread : f.read with
    | none =>
      simp only [budgetedReadLoop, hread]
      exact ih t ht
    | some content =>
      by_cases hcond : t + estimateTokens content > maxTokenBudget
      · have hq : estimateTokens content ≥ (maxTokenBudget - t) + 1 := by
          omega
        have h4 : (estimateTokens content) * 4 ≤ content.data.length + 3 := by
          unfold estimateTokens
          exact Nat.div_mul_le_self _ 4
        have hx : content.data.length ≥ 4 * (maxTokenBudget - t) + 1 := by
          omega
        have hlen : (content.data.take ((maxTokenBudget - t) * 4)).length =
            (maxTokenBudget - t) * 4 := by
          rw [List.length_take]
          omega
        have hest : estimateTokens
            (jsSubstrTo content ((maxTokenBudget - t) * 4)) =
            maxTokenBudget - t := by
          unfold estimateTokens jsSubstrTo
          rw [data_mk, hlen, Nat.add_comm,
            Nat.add_mul_div_right 3 (maxTokenBudget - t) (by norm_num)]
          simp
        have hloop : budgetedReadLoop (f :: rest) t =
            [PartPush.trunc (sepFor f.relPath)
              (jsSubstrTo content ((maxTokenBudget - t) * 4))] := by
          simp only [budgetedReadLoop, hread]
          rw [if_pos hcond]
        rw [hloop]
        refine ⟨?_, by simp [isTrunc], ?_⟩
        · rw [tokenSum_cons]
          simp only [pushContent, tokenSum]
          rw [hest]
          simp
          omega
        · intro pre sep c post hEq
          cases pre with
          | nil =>
            simp only [List.nil_append] at hEq
            have hinj := List.cons.inj hEq.symm
            have hc := (PartPush.trunc.inj hinj.1).2
            refine ⟨hinj.2, ?_, ?_⟩
            · rw [hc, hest]
              simp [tokenSum]
            · rw [hc]
              unfold jsSubstrTo
              rw [data_mk, hlen]
              simp [tokenSum]
          | cons p pre' =>
            rw [List.cons_append] at hEq
            have h2 := List.cons.inj hEq
            have h3 := h2.2
            cases pre' <;> simp at h3
      · push_neg at hcond
        have hloop : budgetedReadLoop (f :: rest) t =
            PartPush.full (sepFor f.relPath) content ::
              budgetedReadLoop rest (t + estimateTokens content) := by
          simp only [budgetedReadLoop, hread]
          rw [if_neg (by omega)]
        obtain ⟨ih1, ih2, ih3⟩ := ih (t + estimateTokens content) hcond
        rw [hloop]
        refine ⟨?_, ?_, ?_⟩
        · rw [tokenSum_cons]
          simp only [pushContent]
          omega
        · simpa [List.countP_cons, isTrunc] using ih2
        · intro pre sep c post hEq
          cases pre with
          | nil =>
            simp only [List.nil_append] at hEq
            exact absurd (List.cons.inj hEq).1 (by simp)
          | cons p pre' =>
            rw [List.cons_append] at hEq
            have h2 := List.cons.inj hEq
            obtain ⟨hpost, hestc, hlenc⟩ := ih3 pre' sep c post h2.2
            have hts : tokenSum (p :: pre') =
                estimateTokens content + tokenSum pre' := by
              rw [← h2.1, tokenSum_cons]
              simp [pushContent]
            refine ⟨hpost, ?_, ?_⟩
            · rw [hts]
              omega
            · rw [hts]
              have : maxTokenBudget - (t + (estimateTokens content +
                  tokenSum pre')) = maxTokenBudget -
                  (t + estimateTokens content + tokenSum pre') := by
                omega
              rw [this]
              exact hlenc

/-- C2: over any file list, the budgeted-read stage keeps the cumulative
estimated token cost of the appended file contents within the fixed
100,000-token budget; at most one push is truncated; and a truncated push is
the last one (no further files are read), its content cut to exactly the
remaining budget converted back to characters (remaining times 4) and costed
at exactly the remaining budget. -/
theorem c2_budget_invariant (files : List SelFile) :
    tokenSum (budgetedRead files) ≤ maxTokenBudget ∧
    (budgetedRead files).countP (fun p => isTrunc p) ≤ 1 ∧
    (∀ pre sep c post,
      budgetedRead files = pre ++ PartPush.trunc sep c :: post →
      post = [] ∧ estimateTokens c = maxTokenBudget - tokenSum pre ∧
      c.data.length = (maxTokenBudget - tokenSum pre) * 4) := by
  obtain ⟨h1, h2, h3⟩ := budgetedReadLoop_spec files 0 (Nat.zero_le _)
  refine ⟨by simpa using h1, h2, ?_⟩
  intro pre sep c post h
  obtain ⟨hp, he, hl⟩ := h3 pre sep c post h
  exact ⟨hp, by simpa using he, by simpa using hl⟩

/-- A 400,001-character file content, estimated at 100,001 tokens — just over
the budget. -/
def bigStr : String := String.mk (List.replicate 400001 'a')

/-- The concrete file list of the C2 witness: one over-budget file followed
by a small one. -/
def c2ExFiles : List SelFile :=
  [⟨"big.txt", some bigStr⟩, ⟨"small.txt", some "hello"⟩]

/-- C2 witness: on the concrete list the first file triggers truncation — the
output is the single truncated push with content cut to 400,000 characters
(the full remaining budget times 4), costed at exactly the budget, and the
second file is never read. -/
theorem c2_witness :
    budgetedRead c2ExFiles =
      [PartPush.trunc (sepFor "big.txt") (jsSubstrTo bigStr 400000)] ∧
    tokenSum (budgetedRead c2ExFiles) ≤ maxTokenBudget ∧
    estimateTokens (jsSubstrTo bigStr 400000) = maxTokenBudget ∧
    (jsSubstrTo bigStr 400000).data.length = maxTokenBudget * 4 := by
  have hblen : bigStr.data.length = 400001 := by
    rw [bigStr, data_mk, List.length_replicate]
  have hbig : estimateTokens bigStr = 100001 := by
    rw [estimateTokens, hblen]
  have hloop : budgetedRead c2ExFiles =
      [PartPush.trunc (sepFor "big.txt") (jsSubstrTo bigStr 400000)] := by
    rw [budgetedRead, c2ExFiles]
    simp only [budgetedReadLoop, hbig]
    rw [if_pos (by norm_num [maxTokenBudget])]
    norm_num [maxTokenBudget]
  obtain ⟨h1, h2, h3⟩ := c2_budget_invariant c2ExFiles
  have hdec : budgetedRead c2ExFiles = [] ++ PartPush.trunc
      (sepFor "big.txt") (jsSubstrTo bigStr 400000) :: [] := by
    simpa using hloop
  obtain ⟨hpost, hest, hlen⟩ :=
    h3 [] (sepFor "big.txt") (jsSubstrTo bigStr 400000) [] hdec
  refine ⟨hloop, h1, ?_, ?_⟩
  · rw [hest]
    simp [tokenSum]
  · rw [hlen]
    simp [tokenSum]

/-- Strings with equal character lists are equal. -/
theorem str_ext {a b : String} (h : a.data = b.data) : a = b := by
  cases a
  cases b
  exact congrArg String.mk h

/-- Character list of an append. -/
theorem append_data (a b : String) : (a ++ b).data = a.data ++ b.data :=
  rfl

/-- String append is associative. -/
theorem str_append_assoc (a b c : String) : a ++ b ++ c = a ++ (b ++ c) :=
  str_ext (by simp [append_data])

/-- The empty string is a left unit. -/
theorem str_empty_append (s : String) : "" ++ s = s :=
  str_ext (by simp [append_data])

/-- The empty string is a right unit. -/
theorem str_append_empty (s : String) : s ++ "" = s :=
  str_ext (by simp [append_data])

/-- An empty string is the empty literal. -/
theorem str_of_empty {c : String} (h : strEmpty c = true) : c = "" :=
  str_ext (by simpa [strEmpty, List.isEmpty_iff] using h)

/-- A prefix of a list is a prefix of any extension. -/
theorem isPrefixOf_append_right {pat a : List Char} (b : List Char)
    (h : pat.isPrefixOf a = true) : pat.isPrefixOf (a ++ b) = true := by
  have hp : pat <+: a := by simpa using h
  have hab : pat <+: a ++ b := hp.trans (List.prefix_append a b)
  simpa using hab

/-- A substring occurrence survives extending the text on the right. -/
theorem hasSubL_append_right (pat a b : List Char)
    (h : hasSubL pat a = true) : hasSubL pat (a ++ b) = true := by
  induction a with
  | nil =>
    cases pat with
    | nil => cases b <;> simp [hasSubL, List.isPrefixOf]
    | cons p ps => simp [hasSubL, List.isPrefixOf] at h
  | cons x xs ih =>
    simp only [hasSubL, List.cons_append, Bool.or_eq_true] at h ⊢
    rcases h with h | h
    · exact Or.inl (isPrefixOf_append_right b h)
    · exact Or.inr (ih h)

/-- No substring occurrence in a text means none in any of its prefixes. -/
theorem hasSub_prefix_false (a b pat : String)
    (h : hasSub (a ++ b) pat = false) : hasSub a pat = false := by
  cases ha : hasSub a pat with
  | false => rfl
  | true =>
    rw [hasSub] at ha h
    rw [append_data] at h
    rw [hasSubL_append_right pat.data a.data b.data ha] at h
    exact h

/-- A stream whose accumulated text never contains a marker trigger: true
when none of the three trigger substrings occurs. -/
def markerFree (s : String) : Bool :=
  !(hasSub s "[function_call]" || hasSub s "[tool_call:"
    || hasSub s "Calling function ")

/-- Unpack markerFree into the three individual absences. -/
theorem markerFree_split (s : String) (h : markerFree s = true) :
    hasSub s "[function_call]" = false ∧ hasSub s "[tool_call:" = false ∧
    hasSub s "Calling function " = false := by
  rw [markerFree, Bool.not_eq_true', Bool.or_eq_false_iff,
    Bool.or_eq_false_iff] at h
  exact ⟨h.1.1, h.1.2, h.2⟩

/-- markerFree restricts to prefixes. -/
theorem markerFree_of_append (a b : String)
    (h : markerFree (a ++ b) = true) : markerFree a = true := by
  obtain ⟨h1, h2, h3⟩ := markerFree_split _ h
  rw [markerFree, hasSub_prefix_false a b _ h1, hasSub_prefix_false a b _ h2,
    hasSub_prefix_false a b _ h3]
  rfl

/-- Concatenation of a list of strings. -/
def strJoin : List String → String
  | [] => ""
  | s :: rest => s ++ strJoin rest

/-- A pure-content stream chunk: no reasoning, no native tool calls. -/
def plainChunk (c : String) : ChunkDelta :=
  { content := some c, reasoning_content := none, tool_calls := [],
    finish_reason := "stop" }

/-- The delta a marker-free non-empty content chunk yields. -/
def plainResp (c : String) : GenResponse :=
  { parts := [RPart.text c], finishReason := FinishR.STOP, text := c,
    functionCalls := none }

/-- Concatenation of the text parts of one response. -/
def respTextConcat (r : GenResponse) : String :=
  strJoin (r.parts.filterMap fun p =>
    match p with
    | RPart.text s => some s
    | _ => none)

/-- Number of FunctionCall parts of one response. -/
def respFnCount (r : GenResponse) : Nat :=
  (r.parts.filter fun p => isFnCallPart p).length

/-- The empty string is empty. -/
theorem strEmpty_lit : strEmpty "" = true :=
  rfl

/-- One stream-loop iteration on a marker-free pure-content chunk: the buffer
just grows by the chunk content and the only yielded part is the unchanged
chunk text (no yield for an empty chunk). -/
theorem streamStep_plain (acc c : String)
    (hopen : hasSub (acc ++ c) "[function_call]" = false)
    (htool : hasSub (acc ++ c) "[tool_call:" = false) :
    streamStep acc (plainChunk c) =
      .ok ((if strEmpty c then acc else acc ++ c),
        (if strEmpty c then [] else [plainResp c])) := by
  cases hc : strEmpty c with
  | true =>
    have hce := str_of_empty hc
    subst hce
    rw [str_append_empty] at hopen htool
    simp [streamStep, plainChunk, strTruthy, contentOrEmpty, strEmpty_lit,
      openMarker, hopen, htool, streamNativeCallsOf]
  | false =>
    simp [streamStep, plainChunk, strTruthy, contentOrEmpty, hc,
      openMarker, hopen, htool, plainResp, streamNativeCallsOf]

/-- The stream loop over marker-free pure-content chunks yields exactly one
unchanged text response per non-empty chunk. -/
theorem runStreamLoop_plain (contents : List String) : ∀ acc : String,
    markerFree (acc ++ strJoin contents) = true →
    runStreamLoop (contents.map plainChunk) acc =
      .ok (((contents.filter fun c => !(strEmpty c)).map plainResp)) := by
  induction contents with
  | nil =>
    intro acc _
    rfl
  | cons c rest ih =>
    intro acc h
    have hassoc : (acc ++ c) ++ strJoin rest = acc ++ strJoin (c :: rest) := by
      rw [strJoin, str_append_assoc]
    have hmf : markerFree (acc ++ c) = true := by
      apply markerFree_of_append (acc ++ c) (strJoin rest)
      rw [hassoc]
      exact h
    obtain ⟨hopen, htool, _⟩ := markerFree_split _ hmf
    rw [List.map_cons, runStreamLoop, streamStep_plain acc c hopen htool]
    cases hc : strEmpty c with
    | true =>
      have hce := str_of_empty hc
      subst hce
      have htail : markerFree (acc ++ strJoin rest) = true := by
        rw [strJoin, str_empty_append] at h
        exact h
      have hrec := ih acc htail
      simp [hrec, strEmpty_lit]
    | false =>
      have htail : markerFree ((acc ++ c) ++ strJoin rest) = true := by
        rw [hassoc]
        exact h
      have hrec := ih (acc ++ c) htail
      simp [hrec, hc]

/-- Text concatenation of a plain delta is the chunk content. -/
theorem respTextConcat_plainResp (c : String) :
    respTextConcat (plainResp c) = c := by
  simp [respTextConcat, plainResp, strJoin, str_append_empty]

/-- A plain delta carries no FunctionCall part. -/
theorem respFnCount_plainResp (c : String) :
    respFnCount (plainResp c) = 0 := by
  simp [respFnCount, plainResp, isFnCallPart]

/-- Dropping empty strings does not change a concatenation. -/
theorem strJoin_filter_nonempty (l : List String) :
    strJoin (l.filter fun c => !(strEmpty c)) = strJoin l := by
  induction l with
  | nil => rfl
  | cons c rest ih =>
    cases hc : strEmpty c with
    | true =>
      have hce := str_of_empty hc
      subst hce
      simp [strEmpty_lit, strJoin, str_empty_append, ih]
    | false => simp [hc, strJoin, ih]

/-- The streamed plain deltas carry zero FunctionCall parts in total. -/
theorem sum_respFnCount_plain (l : List String) :
    ((l.map plainResp).map respFnCount).sum = 0 := by
  induction l with
  | nil => rfl
  | cons c rest ih =>
    simp only [List.map_cons, List.sum_cons]
    rw [respFnCount_plainResp, ih]

/-- C1 (amended): for a chunked stream whose concatenated content contains
none of the marker trigger substrings, draining the stream and normalizing
the whole content agree — the concatenation of streamed text parts equals
the non-streaming text, and both modes produce zero FunctionCall parts.
(With markers the modes diverge; see the counterexample.) -/
theorem c1_stream_equivalence_marker_free (contents : List String)
    (h : markerFree (strJoin contents) = true) :
    ∃ rs res,
      convertStreamToGeminiFormat (contents.map plainChunk) =
        Except.ok rs ∧
      convertToGeminiResponse ⟨⟨some (strJoin contents), []⟩, "stop"⟩ =
        Except.ok res ∧
      strJoin (rs.map respTextConcat) = respTextConcat res ∧
      (rs.map respFnCount).sum = respFnCount res ∧
      (rs.map respFnCount).sum = 0 := by
  obtain ⟨h1, h2, h3⟩ := markerFree_split _ h
  have hstream : convertStreamToGeminiFormat (contents.map plainChunk) =
      .ok ((contents.filter fun c => !(strEmpty c)).map plainResp) := by
    rw [convertStreamToGeminiFormat]
    apply runStreamLoop_plain
    rw [str_empty_append]
    exact h
  have hres := convert_plain_reply (strJoin contents) "stop" h1 h2 h3
  have hmaps : ((contents.filter fun c => !(strEmpty c)).map
      plainResp).map respTextConcat =
      contents.filter fun c => !(strEmpty c) := by
    rw [List.map_map]
    have := List.map_congr_left
      (l := contents.filter fun c => !(strEmpty c))
      (f := respTextConcat ∘ plainResp) (g := id)
      (fun a _ => respTextConcat_plainResp a)
    rw [this, List.map_id]
  refine ⟨_, _, hstream, hres, ?_, ?_, ?_⟩
  · rw [hmaps, strJoin_filter_nonempty]
    cases hj : strEmpty (strJoin contents) with
    | true =>
      rw [str_of_empty hj]
      simp [respTextConcat, strEmpty_lit, strJoin]
    | false => simp [respTextConcat, hj, strJoin, str_append_empty]
  · rw [sum_respFnCount_plain]
    cases hj : strEmpty (strJoin contents) with
    | true => simp [respFnCount, hj]
    | false => simp [respFnCount, hj, isFnCallPart]
  · exact sum_respFnCount_plain _

/-- The natural-language-form reply used against claim C1. -/
def cA : String := "Calling function foo"

/-- First chunk of the straddled-marker stream: prose plus a dangling open
marker. -/
def cB1 : String := "A [function_call]"

/-- Second chunk: the JSON payload and the closing marker. -/
def cB2 : String := "\x7b\"action\":\"foo\"\x7d[/function_call]"

/-- Non-streaming normalization of cA. -/
def respAN : GenResponse :=
  { parts := [RPart.functionCall ⟨JVal.str "foo", JVal.obj []⟩],
    finishReason := FinishR.STOP,
    text := "",
    functionCalls := some [⟨JVal.str "foo", JVal.obj []⟩] }

/-- The second delta of the straddled-marker stream: the call fires once both
markers are buffered, but the visible text keeps the raw chunk (the chunk
itself holds no complete marker pair, so nothing is stripped from it). -/
def respB2 : GenResponse :=
  { parts := [RPart.functionCall ⟨JVal.str "foo", JVal.obj []⟩,
      RPart.text cB2],
    finishReason := FinishR.STOP,
    text := cB2,
    functionCalls := some [⟨JVal.str "foo", JVal.obj []⟩] }

/-- Non-streaming normalization of the straddled content. -/
def respBN : GenResponse :=
  { parts := [RPart.functionCall ⟨JVal.str "foo", JVal.obj []⟩,
      RPart.text "A"],
    finishReason := FinishR.STOP,
    text := "A",
    functionCalls := some [⟨JVal.str "foo", JVal.obj []⟩] }

/-- C1 counterexample, two concrete streams.  (a) On the single-chunk stream
"Calling function foo" the streamed path emits the raw text and zero
FunctionCalls while the non-streaming path emits one FunctionCall and empty
text — both the text equality and the count equality of the claim fail.
(b) On the two-chunk stream whose block marker straddles the chunk boundary
the call counts agree (one each) but the streamed text keeps both raw marker
halves while the non-streaming text is the cleaned "A". -/
theorem c1_counterexample :
    convertStreamToGeminiFormat [plainChunk cA] =
      Except.ok [plainResp cA] ∧
    convertToGeminiResponse ⟨⟨some (strJoin [cA]), []⟩, "stop"⟩ =
      Except.ok respAN ∧
    strJoin ([plainResp cA].map respTextConcat) = cA ∧
    respTextConcat respAN = "" ∧
    ([plainResp cA].map respFnCount).sum = 0 ∧
    respFnCount respAN = 1 ∧
    (cA == "") = false ∧
    convertStreamToGeminiFormat [plainChunk cB1, plainChunk cB2] =
      Except.ok [plainResp cB1, respB2] ∧
    convertToGeminiResponse ⟨⟨some (strJoin [cB1, cB2]), []⟩, "stop"⟩ =
      Except.ok respBN ∧
    strJoin ([plainResp cB1, respB2].map respTextConcat) = cB1 ++ cB2 ∧
    respTextConcat respBN = "A" ∧
    (cB1 ++ cB2 == "A") = false ∧
    ([plainResp cB1, respB2].map respFnCount).sum = 1 ∧
    respFnCount respBN = 1 := by
  exact ⟨rfl, rfl, rfl, rfl, rfl, rfl, rfl, rfl, rfl, rfl, rfl, rfl, rfl,
    rfl⟩

/-- C1 witness: the amended theorem applied to the concrete marker-free
two-chunk stream ["Hello ", "world"]. -/
theorem c1_witness :
    markerFree (strJoin ["Hello ", "world"]) = true ∧
    ((convertStreamToGeminiFormat (["Hello ", "world"].map plainChunk)).map
      fun rs => strJoin (rs.map respTextConcat)) =
      ((convertToGeminiResponse ⟨⟨some (strJoin ["Hello ", "world"]), []⟩,
        "stop"⟩).map respTextConcat) ∧
    ((convertStreamToGeminiFormat (["Hello ", "world"].map plainChunk)).map
      fun rs => (rs.map respFnCount).sum) =
      ((convertToGeminiResponse ⟨⟨some (strJoin ["Hello ", "world"]), []⟩,
        "stop"⟩).map respFnCount) := by
  obtain ⟨rs, res, hs, hn, htext, hcount, _⟩ :=
    c1_stream_equivalence_marker_free ["Hello ", "world"] rfl
  refine ⟨rfl, ?_, ?_⟩
  · rw [hs, hn]
    simpa [Except.map] using htext
  · rw [hs, hn]
    simpa [Except.map] using hcount
